import Mathlib

set_option autoImplicit false

/-!
Formal model of the PTY session subsystem of `netcontrol-containers`:
the session manager (`PTYManager`, `PTYSession` in `services`) and the
terminal WebSocket / REST handlers (`handlers/terminal.go`).

Modelling conventions:
* A Go `*PTYSession` pointer is a token: an index into a heap `store` of
  session records.  The manager's `sessions` map is an association list
  from session id to token.
* The pty `*os.File` handle is modelled by the flag `ptyClosed` (has
  `PTY.Close()` been called) together with `input`, the list of bytes so
  far written into the pty's input stream.
* The child process (`Cmd`) is modelled by `procKilled` (has
  `Process.Kill()` been called) and `procExited` (has the child exited on
  its own), and the `Done` channel by `doneClosed`.
* Go `error` results become `Option SessErr` (`none` = `nil`), and
  `(T, error)` results become `Except SessErr T`.
* Writing to a closed `*os.File` fails with the stdlib's
  `os.ErrClosed` ("file already closed"); this is `SessErr.closed`, the
  realisation of the spec's `ClosedError`.  `SessErr.validation` encodes
  the spec's `ValidationError` taxonomy entry so that claims mentioning
  it can be stated; `SessErr.spawn` is the spec's `SpawnError`
  (`pty.StartWithSize` failing).
-/

/-- Error kinds of the spec's taxonomy as they surface in the code.
`closed` is the os-level "file already closed" error; `spawn` is a
`pty.StartWithSize` failure; `validation` is the spec's `ValidationError`
(stated here so claims about it can be formalised). -/
inductive SessErr where
  | spawn
  | closed
  | validation
deriving DecidableEq, Repr

/-- One session record: `PTYSession` from the services package.
`ID`, `Rows`, `Cols` are the struct fields; the pty handle, the child
process and the `Done` channel are modelled by the boolean flags and the
`input` byte list as described in the file header. -/
structure PTYSession where
  ID : String
  Rows : Nat
  Cols : Nat
  ptyClosed : Bool
  procKilled : Bool
  procExited : Bool
  doneClosed : Bool
  watcherFired : Bool
  input : List Nat
deriving DecidableEq, Repr

/-- The manager: `store` is the heap of session records (a Go pointer is
an index into it; records are never deallocated, matching Go objects
that stay reachable through a pointer), and `sessions` is the
`map[string]*PTYSession` as an association list id ↦ token. -/
structure PTYManager where
  store : List PTYSession
  sessions : List (String × Nat)
deriving DecidableEq, Repr

/-- First-match association-list lookup: Go map read `m.sessions[id]`. -/
def lookupTable : List (String × Nat) → String → Option Nat
  | [], _ => none
  | kv :: rest, sid => if kv.1 = sid then some kv.2 else lookupTable rest sid

/-- Replace the element at index `i` by `f` of it (identity out of range):
mutation of the record a Go pointer refers to. -/
def modifyAt {α : Type} : List α → Nat → (α → α) → List α
  | [], _, _ => []
  | a :: l, 0, f => f a :: l
  | a :: l, n + 1, f => a :: modifyAt l n f

/-- The session record built by `CreateSession`: fresh pty and child
process, empty input stream, open `Done` channel. -/
def freshSession (sessionID : String) (rows cols : Nat) : PTYSession :=
  ⟨sessionID, rows, cols, false, false, false, false, false, []⟩

/-- `PTYManager.CreateSession` (the spec's `CreateOrAttach`): if the id is
already mapped, return that session unchanged; otherwise spawn a shell on
a fresh pty sized rows × cols and register it.  `spawnOk` is the
environment's answer to `pty.StartWithSize` (false = OS failure). -/
def PTYManager.CreateSession (m : PTYManager) (sessionID : String) (rows cols : Nat)
    (spawnOk : Bool) : Except SessErr Nat × PTYManager :=
  match lookupTable m.sessions sessionID with
  | some tok => (.ok tok, m)
  | none =>
    if spawnOk then
      let tok := m.store.length
      (.ok tok, ⟨m.store ++ [freshSession sessionID rows cols], (sessionID, tok) :: m.sessions⟩)
    else
      (.error .spawn, m)

/-- `PTYManager.GetSession`: plain map read, `nil` when absent. -/
def PTYManager.GetSession (m : PTYManager) (sessionID : String) : Option Nat :=
  lookupTable m.sessions sessionID

/-- `PTYManager.CloseSession` (the spec's `Destroy`): if the id is absent
return `nil`; otherwise close the session's pty handle, kill its child
process (both error-ignored), delete the map entry and return `nil`. -/
def PTYManager.CloseSession (m : PTYManager) (sessionID : String) :
    Option SessErr × PTYManager :=
  match lookupTable m.sessions sessionID with
  | none => (none, m)
  | some tok =>
    (none,
      ⟨modifyAt m.store tok (fun s => { s with ptyClosed := true, procKilled := true }),
       m.sessions.filter (fun kv => kv.1 != sessionID)⟩)

/-- `PTYManager.ListSessions` (the spec's `Enumerate`): the ids currently
in the map. -/
def PTYManager.ListSessions (m : PTYManager) : List String :=
  m.sessions.map Prod.fst

/-- `PTYSession.Write`: under the session mutex, `s.PTY.Write(p)`.  On a
closed pty handle the os write fails with the "file already closed"
error; otherwise the whole payload is appended to the pty input stream
and its length returned. -/
def PTYSession.Write (s : PTYSession) (p : List Nat) : Except SessErr Nat × PTYSession :=
  if s.ptyClosed then (.error .closed, s)
  else (.ok p.length, { s with input := s.input ++ p })

/-- `PTYSession.Resize`: under the session mutex, store `rows`/`cols`
unconditionally, then `pty.Setsize`, whose result is returned (it fails
on a closed pty handle, succeeds on a live one).  Note the source stores
the new dimensions before issuing the OS resize. -/
def PTYSession.Resize (s : PTYSession) (rows cols : Nat) : Option SessErr × PTYSession :=
  let s2 := { s with Rows := rows, Cols := cols }
  if s2.ptyClosed then (some .closed, s2) else (none, s2)

/-- `PTYSession.Close`: delegates to the shared manager by id —
`GetPTYManager().CloseSession(s.ID)`. -/
def PTYSession.Close (s : PTYSession) (m : PTYManager) : Option SessErr × PTYManager :=
  m.CloseSession s.ID

/-- REST handler `CloseTerminalSession`: 500 with the error if
`CloseSession` returns one, else 200. -/
def CloseTerminalSession (m : PTYManager) (sessionID : String) : Nat × PTYManager :=
  match m.CloseSession sessionID with
  | (some _, m2) => (500, m2)
  | (none, m2) => (200, m2)

/-!  ## The WebSocket receive loop of `TerminalWS`

A WebSocket message is a text or binary frame carrying a byte payload.
What `encoding/json` makes of a payload is stdlib behaviour external to
this repository; it is modelled by the frame's `decoded` field: `none`
when the bytes are not a JSON object, `some (.resize r c)` when they
decode to an object with `type == "resize"` and numeric `rows`/`cols`
fields (converted to `uint16` by the handler), and `some .other` for any
other JSON object.

`gorilla/websocket.Conn.ReadJSON` reads the NEXT message from the
connection and JSON-decodes its payload, whatever the frame kind.  The
receive loop of `TerminalWS` is modelled over the queue of inbound
frames; an empty queue stands for the connection closing, on which
`ReadMessage`/`ReadJSON` errors and the loop exits. -/

/-- Frame kind of the transport: text or binary. -/
inductive FrameKind where
  | text
  | binary
deriving DecidableEq, Repr

/-- A decoded control message as the handler classifies it. -/
inductive CtrlMsg where
  | resize (rows cols : Nat)
  | other
deriving DecidableEq, Repr

/-- An inbound transport frame: kind, payload bytes, and what
JSON-decoding the payload yields (stdlib behaviour, supplied by the
environment). -/
structure Frame where
  kind : FrameKind
  bytes : List Nat
  decoded : Option CtrlMsg
deriving DecidableEq, Repr

/-- The receive loop of `TerminalWS` (terminal.go lines 66–89), as the
code is written: on a text frame the frame's own payload `data` is
discarded and `conn.ReadJSON` consumes the NEXT frame from the
connection, decoding that frame's payload as the control message (a
decode error or an unrecognised message is ignored and the loop
continues); on a binary frame the payload is written to the session
(error ignored).  Returns the session state when the loop exits. -/
def recvLoop : List Frame → PTYSession → PTYSession
  | [], s => s
  | f :: rest, s =>
    match f.kind with
    | .text =>
      match rest with
      | [] => s
      | g :: rest2 =>
        match g.decoded with
        | some (.resize r c) => recvLoop rest2 (s.Resize r c).2
        | _ => recvLoop rest2 s
    | .binary => recvLoop rest (s.Write f.bytes).2

/-- Modelled from the claim and spec: the receive loop as specified —
a text frame's OWN payload is parsed as the control message (malformed
or unrecognised ones dropped silently, the loop continuing), a binary
frame's payload is written verbatim.  Stated only to be compared with
`recvLoop`, the loop the code actually implements. -/
def recvLoopClaimed : List Frame → PTYSession → PTYSession
  | [], s => s
  | f :: rest, s =>
    match f.kind with
    | .text =>
      match f.decoded with
      | some (.resize r c) => recvLoopClaimed rest (s.Resize r c).2
      | _ => recvLoopClaimed rest s
    | .binary => recvLoopClaimed rest (s.Write f.bytes).2

/-- The UTF-8 bytes of the JSON text `{"type":"resize","rows":30,"cols":100}`. -/
def resizeJsonBytes : List Nat :=
  ("\x7b\"type\":\"resize\",\"rows\":30,\"cols\":100\x7d".data.map Char.toNat)

/-!  ## Lifecycle transition system

Each Go function of the subsystem runs under the locks the source takes
(the manager's `mu` for `CreateSession`/`CloseSession`, the session's
`mu` for `Write`/`Resize`), so each is one atomic step.  The exit
watcher goroutine started by `CreateSession` — `cmd.Wait()`;
`close(session.Done)`; `m.CloseSession(sessionID)` — becomes the
`watcher` step, enabled once the child has exited and firing at most
once (its body is straight-line code run once); the child exiting on its
own is the environment step `procExit`. -/

/-- Apply `Write` through a session pointer (token) inside the manager
state. -/
def applyWrite (m : PTYManager) (tok : Nat) (p : List Nat) : PTYManager :=
  { m with store := modifyAt m.store tok (fun s => (s.Write p).2) }

/-- Apply `Resize` through a session pointer (token) inside the manager
state. -/
def applyResize (m : PTYManager) (tok r c : Nat) : PTYManager :=
  { m with store := modifyAt m.store tok (fun s => (s.Resize r c).2) }

/-- Environment event: the child process of session `tok` exits. -/
def applyExit (m : PTYManager) (tok : Nat) : PTYManager :=
  { m with store := modifyAt m.store tok (fun s => { s with procExited := true }) }

/-- The body of the exit-watcher goroutine for the session at `tok`:
`close(session.Done)` then `m.CloseSession(sessionID)`, where
`sessionID` is the id captured at creation (the record's immutable
`ID`). -/
def watcherApply (m : PTYManager) (tok : Nat) : PTYManager :=
  match m.store.get? tok with
  | none => m
  | some sd =>
    let st1 := modifyAt m.store tok
      (fun s => { s with doneClosed := true, watcherFired := true })
    let m1 : PTYManager := { m with store := st1 }
    (m1.CloseSession sd.ID).2

/-- One atomic step of the subsystem. -/
inductive Step : PTYManager → PTYManager → Prop where
  | create (m : PTYManager) (sid : String) (r c : Nat) (ok : Bool) :
      Step m (m.CreateSession sid r c ok).2
  | close (m : PTYManager) (sid : String) :
      Step m (m.CloseSession sid).2
  | write (m : PTYManager) (tok : Nat) (p : List Nat) :
      Step m (applyWrite m tok p)
  | resizeStep (m : PTYManager) (tok r c : Nat) :
      Step m (applyResize m tok r c)
  | procExit (m : PTYManager) (tok : Nat) :
      Step m (applyExit m tok)
  | watcher (m : PTYManager) (tok : Nat) (sd : PTYSession)
      (h : m.store.get? tok = some sd) (hex : sd.procExited = true)
      (hnf : sd.watcherFired = false) :
      Step m (watcherApply m tok)

/-- The empty initial state: no sessions, empty table. -/
def initMgr : PTYManager := ⟨[], []⟩

/-- States reachable from process start. -/
def Reachable (m : PTYManager) : Prop :=
  Relation.ReflTransGen Step initMgr m

/-!  ## Helper lemmas -/

theorem length_modifyAt {α : Type} (l : List α) (i : Nat) (f : α → α) :
    (modifyAt l i f).length = l.length := by
  induction l generalizing i with
  | nil => rfl
  | cons a t ih =>
    cases i with
    | zero => rfl
    | succ n => simpa [modifyAt] using ih n

theorem get?_modifyAt_self {α : Type} (l : List α) (i : Nat) (f : α → α) :
    (modifyAt l i f).get? i = (l.get? i).map f := by
  induction l generalizing i with
  | nil => cases i <;> rfl
  | cons a t ih =>
    cases i with
    | zero => rfl
    | succ n => simpa [modifyAt] using ih n

theorem get?_modifyAt_ne {α : Type} (l : List α) (i j : Nat) (f : α → α)
    (h : j ≠ i) : (modifyAt l i f).get? j = l.get? j := by
  induction l generalizing i j with
  | nil => cases i <;> rfl
  | cons a t ih =>
    cases i with
    | zero => cases j with
      | zero => exact absurd rfl h
      | succ k => rfl
    | succ n => cases j with
      | zero => rfl
      | succ k => simpa [modifyAt] using ih n k (fun e => h (by omega))

theorem forall_mem_modifyAt {α : Type} {P : α → Prop} (l : List α) (i : Nat)
    (f : α → α) (hl : ∀ s ∈ l, P s) (hf : ∀ s, P s → P (f s)) :
    ∀ s ∈ modifyAt l i f, P s := by
  induction l generalizing i with
  | nil => intro s hs; simp [modifyAt] at hs
  | cons a t ih =>
    cases i with
    | zero =>
      intro s hs
      rcases List.mem_cons.mp hs with hs | hs
      · subst hs; exact hf a (hl a (by simp))
      · exact hl s (by simp [hs])
    | succ n =>
      intro s hs
      rcases List.mem_cons.mp hs with hs | hs
      · subst hs; exact hl s (by simp)
      · exact ih n (fun x hx => hl x (by simp [hx])) s hs

theorem lookupTable_none_not_mem (t : List (String × Nat)) (sid : String)
    (h : lookupTable t sid = none) : sid ∉ t.map Prod.fst := by
  induction t with
  | nil => simp
  | cons kv rest ih =>
    simp only [lookupTable] at h
    by_cases hk : kv.1 = sid
    · simp [hk] at h
    · simp only [hk, if_false] at h
      simp only [List.map_cons, List.mem_cons]
      rintro (he | he)
      · exact hk he.symm
      · exact ih h he

theorem not_mem_map_fst_filter (t : List (String × Nat)) (sid : String) :
    sid ∉ (t.filter (fun kv => kv.1 != sid)).map Prod.fst := by
  intro h
  rcases List.mem_map.mp h with ⟨kv, hmem, heq⟩
  rcases List.mem_filter.mp hmem with ⟨_, hne⟩
  exact bne_iff_ne.mp hne heq

/-- `CloseSession` on an absent id is the identity returning `nil`. -/
theorem CloseSession_absent (m : PTYManager) (sid : String)
    (h : lookupTable m.sessions sid = none) : m.CloseSession sid = (none, m) := by
  unfold PTYManager.CloseSession
  rw [h]

/-- `CloseSession` never returns a non-nil error. -/
theorem CloseSession_fst (m : PTYManager) (sid : String) :
    (m.CloseSession sid).1 = none := by
  unfold PTYManager.CloseSession
  cases lookupTable m.sessions sid <;> rfl

/-- After `CloseSession sid`, the id `sid` is not enumerated. -/
theorem not_mem_ListSessions_CloseSession (m : PTYManager) (sid : String) :
    sid ∉ ((m.CloseSession sid).2).ListSessions := by
  unfold PTYManager.CloseSession PTYManager.ListSessions
  cases hl : lookupTable m.sessions sid with
  | none => exact lookupTable_none_not_mem m.sessions sid hl
  | some tok => exact not_mem_map_fst_filter m.sessions sid

/-- After `CloseSession sid`, looking up `sid` yields nothing. -/
theorem lookupTable_CloseSession_self (m : PTYManager) (sid : String) :
    lookupTable ((m.CloseSession sid).2).sessions sid = none := by
  unfold PTYManager.CloseSession
  cases hl : lookupTable m.sessions sid with
  | none => exact hl
  | some tok =>
    show lookupTable (m.sessions.filter (fun kv => kv.1 != sid)) sid = none
    induction m.sessions with
    | nil => rfl
    | cons kv rest ih =>
      by_cases hk : kv.1 = sid
      · simp [hk, lookupTable, ih]
      · simp [List.filter_cons, bne_iff_ne, hk, lookupTable, ih]

/-- `Write` never touches the handle and lifecycle flags. -/
theorem Write_snd_flags (s : PTYSession) (p : List Nat) :
    ((s.Write p).2).ptyClosed = s.ptyClosed ∧ ((s.Write p).2).procKilled = s.procKilled ∧
      ((s.Write p).2).watcherFired = s.watcherFired := by
  unfold PTYSession.Write
  split <;> exact ⟨rfl, rfl, rfl⟩

/-- `Resize` never touches the handle and lifecycle flags. -/
theorem Resize_snd_flags (s : PTYSession) (r c : Nat) :
    ((s.Resize r c).2).ptyClosed = s.ptyClosed ∧ ((s.Resize r c).2).procKilled = s.procKilled ∧
      ((s.Resize r c).2).watcherFired = s.watcherFired := by
  unfold PTYSession.Resize
  by_cases hc : s.ptyClosed = true <;> simp [hc]

/-- The paired-handle invariant of the spec: for every session record,
the pty handle has been closed exactly when the child process has been
killed — the two releases only ever happen together. -/
def PairedHandles (m : PTYManager) : Prop :=
  ∀ s ∈ m.store, s.ptyClosed = s.procKilled

theorem pairedHandles_CloseSession (m : PTYManager) (sid : String)
    (hp : PairedHandles m) : PairedHandles (m.CloseSession sid).2 := by
  unfold PTYManager.CloseSession
  cases lookupTable m.sessions sid with
  | none => exact hp
  | some tok =>
    intro s hs
    exact forall_mem_modifyAt m.store tok _ hp (fun x _ => rfl) s hs

theorem pairedHandles_step {m m' : PTYManager} (h : Step m m')
    (hp : PairedHandles m) : PairedHandles m' := by
  cases h with
  | create sid r c ok =>
    unfold PTYManager.CreateSession
    cases hl : lookupTable m.sessions sid with
    | some tok => exact hp
    | none =>
      cases ok with
      | false => exact hp
      | true =>
        intro s hs
        rcases List.mem_append.mp hs with hs | hs
        · exact hp s hs
        · rcases List.mem_singleton.mp hs with rfl
          rfl
  | close sid => exact pairedHandles_CloseSession m sid hp
  | write tok p =>
    intro s hs
    refine forall_mem_modifyAt m.store tok _ hp (fun x hx => ?_) s hs
    rw [(Write_snd_flags x p).1, (Write_snd_flags x p).2.1]
    exact hx
  | resizeStep tok r c =>
    intro s hs
    refine forall_mem_modifyAt m.store tok _ hp (fun x hx => ?_) s hs
    rw [(Resize_snd_flags x r c).1, (Resize_snd_flags x r c).2.1]
    exact hx
  | procExit tok =>
    intro s hs
    refine forall_mem_modifyAt m.store tok _ hp (fun x hx => ?_) s hs
    exact hx
  | watcher tok sd hget hex hnf =>
    unfold watcherApply
    rw [hget]
    exact pairedHandles_CloseSession
      ⟨modifyAt m.store tok
        (fun s => { s with doneClosed := true, watcherFired := true }), m.sessions⟩
      sd.ID
      (fun s hs =>
        forall_mem_modifyAt m.store tok
          (fun x => { x with doneClosed := true, watcherFired := true })
          hp (fun x hx => hx) s hs)

/-- Once a record's `watcherFired` flag is set, any per-record update
used by the system keeps it set. -/
theorem fired_after_modifyAt (l : List PTYSession) (i tok : Nat)
    (f : PTYSession → PTYSession) (sd : PTYSession)
    (hget : l.get? tok = some sd) (hf : sd.watcherFired = true)
    (hpres : ∀ s, s.watcherFired = true → (f s).watcherFired = true) :
    ∃ sd', (modifyAt l i f).get? tok = some sd' ∧ sd'.watcherFired = true := by
  by_cases he : tok = i
  · subst he
    refine ⟨f sd, ?_, hpres sd hf⟩
    rw [get?_modifyAt_self, hget]
    rfl
  · exact ⟨sd, by rw [get?_modifyAt_ne l i tok f he]; exact hget, hf⟩

theorem fired_after_CloseSession (m : PTYManager) (sid : String) (tok : Nat)
    (sd : PTYSession) (hget : m.store.get? tok = some sd)
    (hf : sd.watcherFired = true) :
    ∃ sd', ((m.CloseSession sid).2).store.get? tok = some sd' ∧ sd'.watcherFired = true := by
  unfold PTYManager.CloseSession
  cases lookupTable m.sessions sid with
  | none => exact ⟨sd, hget, hf⟩
  | some i => exact fired_after_modifyAt m.store i tok _ sd hget hf (fun s hs => hs)

theorem fired_mono_step {m m' : PTYManager} (h : Step m m') (tok : Nat)
    (sd : PTYSession) (hget : m.store.get? tok = some sd)
    (hf : sd.watcherFired = true) :
    ∃ sd', m'.store.get? tok = some sd' ∧ sd'.watcherFired = true := by
  cases h with
  | create sid r c ok =>
    unfold PTYManager.CreateSession
    cases hl : lookupTable m.sessions sid with
    | some t => exact ⟨sd, hget, hf⟩
    | none =>
      cases ok with
      | false => exact ⟨sd, hget, hf⟩
      | true =>
        refine ⟨sd, ?_, hf⟩
        have hlt : tok < m.store.length := by
          by_contra hge
          rw [List.get?_eq_none.mpr (Nat.le_of_not_lt hge)] at hget
          exact Option.noConfusion hget
        show (m.store ++ [freshSession sid r c]).get? tok = some sd
        rw [List.get?_append hlt]
        exact hget
  | close sid => exact fired_after_CloseSession m sid tok sd hget hf
  | write i p => exact fired_after_modifyAt m.store i tok _ sd hget hf (fun s hs => by
      rw [(Write_snd_flags s p).2.2]; exact hs)
  | resizeStep i r c => exact fired_after_modifyAt m.store i tok _ sd hget hf (fun s hs => by
      rw [(Resize_snd_flags s r c).2.2]; exact hs)
  | procExit i => exact fired_after_modifyAt m.store i tok _ sd hget hf (fun s hs => hs)
  | watcher i sd2 hget2 hex hnf =>
    unfold watcherApply
    rw [hget2]
    rcases fired_after_modifyAt m.store i tok
        (fun s => { s with doneClosed := true, watcherFired := true })
        sd hget hf (fun s _ => rfl) with
      ⟨sd', hg', hf'⟩
    exact fired_after_CloseSession
      ⟨modifyAt m.store i
        (fun s => { s with doneClosed := true, watcherFired := true }), m.sessions⟩
      sd2.ID tok sd' hg' hf'

theorem fired_mono_reach {m m' : PTYManager} (h : Relation.ReflTransGen Step m m')
    (tok : Nat) (sd : PTYSession) (hget : m.store.get? tok = some sd)
    (hf : sd.watcherFired = true) :
    ∃ sd', m'.store.get? tok = some sd' ∧ sd'.watcherFired = true := by
  induction h with
  | refl => exact ⟨sd, hget, hf⟩
  | tail hsteps hstep ih =>
    rcases ih with ⟨sd1, hg1, hf1⟩
    exact fired_mono_step hstep tok sd1 hg1 hf1

/-- Every reachable state satisfies the paired-handle invariant. -/
theorem reachable_pairedHandles (m : PTYManager) (hm : Reachable m) :
    PairedHandles m := by
  unfold Reachable at hm
  induction hm with
  | refl => intro x hx; simp [initMgr] at hx
  | tail hsteps hstep ih => exact pairedHandles_step hstep ih

/-- `CloseSession` does not change the number of heap records. -/
theorem CloseSession_store_length (m : PTYManager) (sid : String) :
    ((m.CloseSession sid).2).store.length = m.store.length := by
  unfold PTYManager.CloseSession
  cases lookupTable m.sessions sid with
  | none => rfl
  | some tok => exact length_modifyAt m.store tok _

/-!  ## Concrete scenario states used by counterexamples and witnesses -/

/-- One session "abc" created at 24 × 80. -/
def mAbc : PTYManager := (initMgr.CreateSession "abc" 24 80 true).2

/-- Session "abc" created, destroyed, and re-created at 100 × 30: the
table now maps "abc" to the second (token 1) record while the first
(token 0) record still exists on the heap. -/
def mAbc2 : PTYManager :=
  ((((initMgr.CreateSession "abc" 24 80 true).2).CloseSession "abc").2.CreateSession
    "abc" 100 30 true).2

/-- "abc" created at 24 × 80 and its child process has exited. -/
def mExited : PTYManager := applyExit mAbc 0

/-!  ## Claims -/

/-- C2, counterexample: on a live 24 × 80 session, `Resize(0, 40)` does
NOT return a `ValidationError` — it returns `nil` — and it does NOT
retain the prior dimensions: the stored rows become 0 and cols 40.  The
claim fails at rows = 0, cols = 40. -/
theorem c2_resize_zero_accepted :
    ((freshSession "abc" 24 80).Resize 0 40).1 = none ∧
    ((freshSession "abc" 24 80).Resize 0 40).2.Rows = 0 ∧
    ((freshSession "abc" 24 80).Resize 0 40).2.Cols = 40 := by
  exact ⟨rfl, rfl, rfl⟩

/-- C2, amended: `Resize(rows, cols)` performs no validation at all: for
every uint16 `rows`/`cols` (zero included) it unconditionally overwrites
the stored dimensions, never returns a `ValidationError`, and on a live
session returns `nil` (the OS resize succeeding); out-of-16-bit-range
values are unrepresentable in the Go `uint16` signature. -/
theorem c2_resize_no_validation (s : PTYSession) (r c : Nat)
    (hr : r < 65536) (hc : c < 65536) :
    (s.Resize r c).2.Rows = r ∧ (s.Resize r c).2.Cols = c ∧
    (s.Resize r c).1 ≠ some SessErr.validation ∧
    (s.ptyClosed = false → (s.Resize r c).1 = none) := by
  unfold PTYSession.Resize
  by_cases hcl : s.ptyClosed = true <;> simp [hcl]

/-- Witness for C2 (amended) at the concrete input `Resize(0, 40)` on a
live 24 × 80 session. -/
theorem c2_resize_no_validation_witness :
    ((freshSession "abc" 24 80).Resize 0 40).2.Rows = 0 ∧
    ((freshSession "abc" 24 80).Resize 0 40).2.Cols = 40 ∧
    ((freshSession "abc" 24 80).Resize 0 40).1 ≠ some SessErr.validation ∧
    ((freshSession "abc" 24 80).ptyClosed = false →
      ((freshSession "abc" 24 80).Resize 0 40).1 = none) :=
  c2_resize_no_validation (freshSession "abc" 24 80) 0 40 (by decide) (by decide)

/-- C3: `CreateSession` on an id already mapped to a live session
returns exactly that session and leaves the whole manager state
untouched — the requested rows/cols are ignored, the stored dimensions
stay, and no new record is added (no process is spawned). -/
theorem c3_create_attach_existing (m : PTYManager) (sid : String) (tok : Nat)
    (r c : Nat) (ok : Bool) (h : lookupTable m.sessions sid = some tok) :
    m.CreateSession sid r c ok = (.ok tok, m) := by
  unfold PTYManager.CreateSession
  rw [h]

/-- Witness for C3: after creating "abc" at 24 × 80, a second
`CreateSession("abc", 120, 40)` returns token 0 and the unchanged
manager. -/
theorem c3_create_attach_existing_witness :
    mAbc.CreateSession "abc" 120 40 true = (.ok 0, mAbc) :=
  c3_create_attach_existing mAbc "abc" 0 120 40 true (by decide)

/-- C4: closing is idempotent.  A second `Close` on the same session,
right after a completed `Close`, returns `nil` and leaves the manager
state untouched; and `CloseSession` (the spec's `Destroy`) on an absent
id returns `nil` and leaves the state untouched. -/
theorem c4_idempotent_close (m : PTYManager) (s : PTYSession) (sid : String) :
    s.Close ((s.Close m).2) = (none, (s.Close m).2) ∧
    (lookupTable m.sessions sid = none → m.CloseSession sid = (none, m)) :=
  ⟨CloseSession_absent ((m.CloseSession s.ID).2) s.ID (lookupTable_CloseSession_self m s.ID),
   fun h => CloseSession_absent m sid h⟩

/-- Witness for C4: double close of "abc" and destroy of the absent id
"zzz" on the concrete one-session state. -/
theorem c4_idempotent_close_witness :
    (freshSession "abc" 24 80).Close (((freshSession "abc" 24 80).Close mAbc).2)
      = (none, ((freshSession "abc" 24 80).Close mAbc).2) ∧
    mAbc.CloseSession "zzz" = (none, mAbc) :=
  ⟨(c4_idempotent_close mAbc (freshSession "abc" 24 80) "zzz").1,
   (c4_idempotent_close mAbc (freshSession "abc" 24 80) "zzz").2 (by decide)⟩

/-- C8: after a session has been torn down by `CloseSession`, `Write` on
its record fails, and the error is the closed-session error (the os
"file already closed" error, realising the spec's `ClosedError`). -/
theorem c8_write_after_teardown (m : PTYManager) (sid : String) (tok : Nat)
    (x : PTYSession) (p : List Nat)
    (h : lookupTable m.sessions sid = some tok)
    (hx : ((m.CloseSession sid).2).store.get? tok = some x) :
    (x.Write p).1 = .error .closed := by
  have hstore : ((m.CloseSession sid).2).store
      = modifyAt m.store tok (fun s => { s with ptyClosed := true, procKilled := true }) := by
    unfold PTYManager.CloseSession
    rw [h]
  rw [hstore, get?_modifyAt_self] at hx
  cases hg : m.store.get? tok with
  | none => rw [hg] at hx; exact Option.noConfusion hx
  | some y =>
    rw [hg] at hx
    have hxy : x = { y with ptyClosed := true, procKilled := true } := by
      injection hx with hx2
      exact hx2.symm
    subst hxy
    rfl

/-- Witness for C8: write "hi" to the record of "abc" after closing it. -/
theorem c8_write_after_teardown_witness :
    ((⟨"abc", 24, 80, true, true, false, false, false, []⟩ : PTYSession).Write [104, 105]).1
      = .error .closed :=
  c8_write_after_teardown mAbc "abc" 0
    ⟨"abc", 24, 80, true, true, false, false, false, []⟩ [104, 105] (by decide) (by decide)

/-- C9: `CloseSession` returns `nil` for every manager state and every
id — present or absent, whatever the record's flags — so the REST close
handler's 500 branch is unreachable and it always answers 200. -/
theorem c9_closeSession_never_errors (m : PTYManager) (sid : String) :
    (m.CloseSession sid).1 = none ∧ (CloseTerminalSession m sid).1 = 200 := by
  have h := CloseSession_fst m sid
  refine ⟨h, ?_⟩
  unfold CloseTerminalSession
  rcases hcs : m.CloseSession sid with ⟨err, m2⟩
  rw [hcs] at h
  simp only at h
  subst h
  rfl

/-- C10: `PTYSession.Close` goes through the shared manager by id, not
through the receiver: `s.Close()` is literally `CloseSession(s.ID)`, it
tears down (pty closed, process killed) whatever record the table
currently maps `s.ID` to and removes that table entry, while any other
heap record — in particular `s`'s own, when `s` was destroyed earlier
and a new session now owns the id — is untouched. -/
theorem c10_close_by_id (m : PTYManager) (s : PTYSession) (tokNew tokOld : Nat)
    (hNew : lookupTable m.sessions s.ID = some tokNew) (hne : tokOld ≠ tokNew) :
    s.Close m = m.CloseSession s.ID ∧
    ((s.Close m).2).store.get? tokNew
      = (m.store.get? tokNew).map
          (fun x => { x with ptyClosed := true, procKilled := true }) ∧
    lookupTable ((s.Close m).2).sessions s.ID = none ∧
    ((s.Close m).2).store.get? tokOld = m.store.get? tokOld := by
  refine ⟨rfl, ?_, lookupTable_CloseSession_self m s.ID, ?_⟩
  · have hstore : ((m.CloseSession s.ID).2).store
        = modifyAt m.store tokNew
            (fun x => { x with ptyClosed := true, procKilled := true }) := by
      unfold PTYManager.CloseSession
      rw [hNew]
    show ((m.CloseSession s.ID).2).store.get? tokNew = _
    rw [hstore, get?_modifyAt_self]
  · have hstore : ((m.CloseSession s.ID).2).store
        = modifyAt m.store tokNew
            (fun x => { x with ptyClosed := true, procKilled := true }) := by
      unfold PTYManager.CloseSession
      rw [hNew]
    show ((m.CloseSession s.ID).2).store.get? tokOld = _
    rw [hstore, get?_modifyAt_ne m.store tokNew tokOld _ hne]

/-- Witness for C10 on the create/destroy/re-create scenario `mAbc2`:
closing through the stale first session record (token 0, already
destroyed) destroys the NEW session (token 1) and leaves the old record
as it was. -/
theorem c10_close_by_id_witness :
    (freshSession "abc" 24 80).Close mAbc2 = mAbc2.CloseSession "abc" ∧
    (((freshSession "abc" 24 80).Close mAbc2).2).store.get? 1
      = (mAbc2.store.get? 1).map
          (fun x => { x with ptyClosed := true, procKilled := true }) ∧
    lookupTable (((freshSession "abc" 24 80).Close mAbc2).2).sessions "abc" = none ∧
    (((freshSession "abc" 24 80).Close mAbc2).2).store.get? 0 = mAbc2.store.get? 0 :=
  c10_close_by_id mAbc2 (freshSession "abc" 24 80) 1 0 (by decide) (by decide)

/-- C6: in every reachable state of the lifecycle transition system, each
session record's pty handle and child process are released together: the
pty has been closed exactly when the process has been killed.  No step —
create, client close, write, resize, process exit, or the exit watcher —
leaves exactly one of the two released. -/
theorem c6_paired_handles (m : PTYManager) (s : PTYSession)
    (hm : Reachable m) (hs : s ∈ m.store) : s.ptyClosed = s.procKilled :=
  reachable_pairedHandles m hm s hs

/-- Witness for C6 at the reachable one-session state `mAbc`. -/
theorem c6_paired_handles_witness :
    (freshSession "abc" 24 80).ptyClosed = (freshSession "abc" 24 80).procKilled :=
  c6_paired_handles mAbc (freshSession "abc" 24 80)
    (Relation.ReflTransGen.single (Step.create initMgr "abc" 24 80 true))
    (by decide)

/-- C5: once the child process of the session at `tok` has exited and its
watcher has not yet run, the watcher transition is enabled with no
client-initiated close required; running it invokes
`CloseSession`/`Destroy` on the id captured at creation, after which that
id is no longer enumerated by `ListSessions`; and the watcher runs at
most once — in every state reachable after it has fired, the record's
`watcherFired` flag is set, so the watcher transition for `tok` is never
enabled again. -/
theorem c5_watcher_cleanup (m m2 : PTYManager) (tok : Nat) (sd sd2 : PTYSession)
    (hget : m.store.get? tok = some sd) (hex : sd.procExited = true)
    (hnf : sd.watcherFired = false)
    (hreach : Relation.ReflTransGen Step (watcherApply m tok) m2)
    (hget2 : m2.store.get? tok = some sd2) :
    Step m (watcherApply m tok) ∧
    sd.ID ∉ (watcherApply m tok).ListSessions ∧
    sd2.watcherFired = true := by
  refine ⟨Step.watcher m tok sd hget hex hnf, ?_, ?_⟩
  · unfold watcherApply
    rw [hget]
    exact not_mem_ListSessions_CloseSession
      ⟨modifyAt m.store tok
        (fun s => { s with doneClosed := true, watcherFired := true }), m.sessions⟩
      sd.ID
  · have hW : ∃ sd', (watcherApply m tok).store.get? tok = some sd'
        ∧ sd'.watcherFired = true := by
      unfold watcherApply
      rw [hget]
      refine fired_after_CloseSession
        ⟨modifyAt m.store tok
          (fun s => { s with doneClosed := true, watcherFired := true }), m.sessions⟩
        sd.ID tok { sd with doneClosed := true, watcherFired := true } ?_ rfl
      show (modifyAt m.store tok
        (fun s => { s with doneClosed := true, watcherFired := true })).get? tok = _
      rw [get?_modifyAt_self, hget]
      rfl
    rcases hW with ⟨sd', hg', hf'⟩
    rcases fired_mono_reach hreach tok sd' hg' hf' with ⟨sd'', hg'', hf''⟩
    rw [hget2] at hg''
    injection hg'' with he
    rw [he]
    exact hf''

/-- Witness for C5 on `mExited` ("abc" created, child exited): the
watcher step fires, "abc" is delisted, and the record's fired flag is
set. -/
theorem c5_watcher_cleanup_witness :
    Step mExited (watcherApply mExited 0) ∧
    (⟨"abc", 24, 80, false, false, true, false, false, []⟩ : PTYSession).ID
      ∉ (watcherApply mExited 0).ListSessions ∧
    (⟨"abc", 24, 80, true, true, true, true, true, []⟩ : PTYSession).watcherFired = true :=
  c5_watcher_cleanup mExited (watcherApply mExited 0) 0
    ⟨"abc", 24, 80, false, false, true, false, false, []⟩
    ⟨"abc", 24, 80, true, true, true, true, true, []⟩
    (by decide) rfl rfl Relation.ReflTransGen.refl (by decide)

/-- The two inbound frames of the C1 failing input: a text frame whose
payload is the JSON resize control message, then a binary frame carrying
the raw bytes of "ls\n". -/
def wsFramesC1 : List Frame :=
  [⟨.text, resizeJsonBytes, some (.resize 30 100)⟩, ⟨.binary, [108, 115, 10], none⟩]

/-- C1 (divergence): on a text frame followed by a binary frame, the
receive loop as implemented discards the text frame's own payload and
has `conn.ReadJSON` consume the binary frame, whose bytes do not decode
as JSON — so the session ends unchanged: no `Resize(30, 100)`, and the
binary payload "ls\n" is never written.  The behaviour the claim and
spec describe (parse the text frame's own payload, forward the binary
frame verbatim) yields a 100 × 30 session with input "ls\n". -/
theorem c1_recvLoop_divergence :
    recvLoop wsFramesC1 (freshSession "abc" 24 80) = freshSession "abc" 24 80 ∧
    recvLoopClaimed wsFramesC1 (freshSession "abc" 24 80)
      = ⟨"abc", 30, 100, false, false, false, false, false, [108, 115, 10]⟩ ∧
    recvLoop wsFramesC1 (freshSession "abc" 24 80)
      ≠ recvLoopClaimed wsFramesC1 (freshSession "abc" 24 80) := by
  refine ⟨rfl, rfl, ?_⟩
  decide

/-!  ## Write ordering under the session mutex (claim C7)

`PTYSession.Write` runs `s.PTY.Write(p)` while holding `s.mu`, and
`PTYSession.Resize` updates the dimensions and issues `pty.Setsize`
while holding the same mutex.  To show the lock really rules out torn
writes, this model makes the OS-level write NON-atomic — one byte of the
payload reaches the pty input stream per step — and only the mutex
serialises callers.  Each caller thread submits a list of operations in
program order; a scheduler interleaves the threads arbitrarily. -/

namespace WriteOrder

/-- One operation a caller submits on the session. -/
inductive TOp where
  | write (p : List Nat)
  | resize (r c : Nat)
deriving DecidableEq, Repr

/-- The write payloads of an op list, in submission order. -/
def writesOf : List TOp → List (List Nat)
  | [] => []
  | .write p :: rest => p :: writesOf rest
  | .resize _ _ :: rest => writesOf rest

/-- The op list of thread `t` (empty for an out-of-range index). -/
def nthOps (l : List (List TOp)) (t : Nat) : List TOp :=
  (l.get? t).getD []

/-- Scheduler state for one session shared by caller threads:
`threads` holds each caller's remaining ops, `holder` is
`some (t, emitted, rem)` while thread `t` holds `s.mu` inside
`PTY.Write` — `emitted` already in the stream, `rem` still to go —
`stream` is the pty input stream and `rows`/`cols` the stored
dimensions. -/
structure WSt where
  threads : List (List TOp)
  holder : Option (Nat × List Nat × List Nat)
  stream : List Nat
  rows : Nat
  cols : Nat
deriving DecidableEq, Repr

/-- One scheduler step.  `startWrite` is thread `t` acquiring `s.mu`
with a `Write(p)` at the head of its program; `emit` moves one byte of
the held payload into the pty input stream; `endWrite` releases the
mutex once the payload is exhausted; `doResize` is a whole
`Resize(r, c)` — mutex acquire, store dimensions, `pty.Setsize`, release
— which touches no stream bytes and needs the mutex free. -/
inductive WStep : WSt → WSt → Prop where
  | startWrite (st : WSt) (t : Nat) (p : List Nat) (rest : List TOp)
      (hfree : st.holder = none)
      (hth : st.threads.get? t = some (.write p :: rest)) :
      WStep st { st with
                   threads := modifyAt st.threads t (fun _ => rest),
                   holder := some (t, [], p) }
  | emit (st : WSt) (t : Nat) (em : List Nat) (b : Nat) (rem : List Nat)
      (hh : st.holder = some (t, em, b :: rem)) :
      WStep st { st with
                   stream := st.stream ++ [b],
                   holder := some (t, em ++ [b], rem) }
  | endWrite (st : WSt) (t : Nat) (em : List Nat)
      (hh : st.holder = some (t, em, [])) :
      WStep st { st with holder := none }
  | doResize (st : WSt) (t : Nat) (r c : Nat) (rest : List TOp)
      (hfree : st.holder = none)
      (hth : st.threads.get? t = some (.resize r c :: rest)) :
      WStep st { st with
                   threads := modifyAt st.threads t (fun _ => rest),
                   rows := r, cols := c }

/-- Initial state: every caller still has its full program, mutex free,
empty pty input stream. -/
def initW (ops : List (List TOp)) (r c : Nat) : WSt := ⟨ops, none, [], r, c⟩

/-- The payloads of `order` completed by thread `t`, in completion
order. -/
def filterThread (t : Nat) (order : List (Nat × List Nat)) : List (List Nat) :=
  (order.filter (fun q => q.1 == t)).map Prod.snd

/-- The payload (as a whole) currently being written by thread `t`, if
`t` holds the mutex. -/
def holderPiece (holder : Option (Nat × List Nat × List Nat)) (t : Nat) : List (List Nat) :=
  match holder with
  | some (u, em, rem) => if u = t then [em ++ rem] else []
  | none => []

/-- The bytes of the in-progress write already in the stream. -/
def donePart (holder : Option (Nat × List Nat × List Nat)) : List Nat :=
  match holder with
  | some (_, em, _) => em
  | none => []

/-- Scheduler invariant relative to the initial programs `ops0`: the
ghost `order` lists the completed write payloads in mutex-acquisition
order; the stream is their concatenation plus the emitted part of the
in-progress write; and per thread, completed ++ in-progress ++ pending
payloads are exactly the thread's submitted payloads in order. -/
structure Inv (ops0 : List (List TOp)) (st : WSt) (order : List (Nat × List Nat)) : Prop where
  stream_eq : st.stream = (order.map Prod.snd).flatten ++ donePart st.holder
  thread_eq : ∀ t, filterThread t order ++ holderPiece st.holder t
      ++ writesOf (nthOps st.threads t) = writesOf (nthOps ops0 t)
  len_eq : st.threads.length = ops0.length
  order_lt : ∀ q ∈ order, q.1 < ops0.length
  holder_lt : ∀ t em rem, st.holder = some (t, em, rem) → t < ops0.length

theorem inv_init (ops0 : List (List TOp)) (r c : Nat) :
    Inv ops0 (initW ops0 r c) [] := by
  refine ⟨rfl, fun t => rfl, rfl, ?_, ?_⟩
  · intro q hq; simp at hq
  · intro t em rem h; exact Option.noConfusion h

theorem lt_of_get?_eq_some {α : Type} (l : List α) (n : Nat) (a : α)
    (h : l.get? n = some a) : n < l.length := by
  by_contra hge
  rw [List.get?_eq_none.mpr (Nat.le_of_not_lt hge)] at h
  exact Option.noConfusion h

theorem nthOps_modifyAt_const (l : List (List TOp)) (t : Nat) (ops rest : List TOp)
    (h : l.get? t = some ops) :
    nthOps (modifyAt l t (fun _ => rest)) t = rest := by
  unfold nthOps
  rw [get?_modifyAt_self, h]
  rfl

theorem nthOps_modifyAt_ne (l : List (List TOp)) (t u : Nat) (f : List TOp → List TOp)
    (h : u ≠ t) : nthOps (modifyAt l t f) u = nthOps l u := by
  unfold nthOps
  rw [get?_modifyAt_ne l t u f h]

theorem filterThread_append_self (t : Nat) (order : List (Nat × List Nat))
    (em : List Nat) :
    filterThread t (order ++ [(t, em)]) = filterThread t order ++ [em] := by
  unfold filterThread
  rw [List.filter_append, List.map_append]
  simp

theorem filterThread_append_ne (t u : Nat) (order : List (Nat × List Nat))
    (em : List Nat) (h : u ≠ t) :
    filterThread u (order ++ [(t, em)]) = filterThread u order := by
  unfold filterThread
  rw [List.filter_append, List.map_append]
  have hb : (t == u) = false := beq_eq_false_iff_ne.mpr (fun e => h e.symm)
  simp [List.filter_cons, hb]

/-- The invariant is preserved by every scheduler step. -/
theorem inv_step {ops0 : List (List TOp)} {st st' : WSt}
    {order : List (Nat × List Nat)} (h : WStep st st') (hinv : Inv ops0 st order) :
    ∃ order', Inv ops0 st' order' := by
  cases h with
  | startWrite t p rest hfree hth =>
    refine ⟨order, ?_, ?_, ?_, hinv.order_lt, ?_⟩
    · show st.stream = (order.map Prod.snd).flatten ++ donePart (some (t, [], p))
      have hs := hinv.stream_eq
      rw [hfree] at hs
      simpa [donePart] using hs
    · intro u
      have he := hinv.thread_eq u
      rw [hfree] at he
      by_cases hu : u = t
      · subst hu
        have hn : nthOps st.threads u = TOp.write p :: rest := by
          unfold nthOps
          rw [hth]
          rfl
        rw [hn] at he
        show filterThread u order ++ holderPiece (some (u, [], p)) u
            ++ writesOf (nthOps (modifyAt st.threads u (fun _ => rest)) u)
            = writesOf (nthOps ops0 u)
        rw [nthOps_modifyAt_const st.threads u _ rest hth]
        simp only [holderPiece, if_pos rfl, List.nil_append, writesOf] at he ⊢
        rw [List.append_assoc]
        simpa using he
      · show filterThread u order ++ holderPiece (some (t, [], p)) u
            ++ writesOf (nthOps (modifyAt st.threads t (fun _ => rest)) u)
            = writesOf (nthOps ops0 u)
        rw [nthOps_modifyAt_ne st.threads t u _ hu]
        have hne : t ≠ u := fun e => hu e.symm
        simp only [holderPiece, if_neg hne] at he ⊢
        simpa using he
    · show (modifyAt st.threads t (fun _ => rest)).length = ops0.length
      rw [length_modifyAt]
      exact hinv.len_eq
    · intro t' em rem heq
      have h1 : (some (t, ([] : List Nat), p) : Option (Nat × List Nat × List Nat))
          = some (t', em, rem) := heq
      have ht : t = t' := congrArg (fun o => ((o.getD (0, [], [])).1)) h1
      rw [← ht, ← hinv.len_eq]
      exact lt_of_get?_eq_some st.threads t _ hth
  | emit t em b rem hh =>
    refine ⟨order, ?_, ?_, hinv.len_eq, hinv.order_lt, ?_⟩
    · show st.stream ++ [b]
          = (order.map Prod.snd).flatten ++ donePart (some (t, em ++ [b], rem))
      have hs := hinv.stream_eq
      rw [hh] at hs
      rw [hs]
      simp [donePart]
    · intro u
      have he := hinv.thread_eq u
      rw [hh] at he
      show filterThread u order ++ holderPiece (some (t, em ++ [b], rem)) u
          ++ writesOf (nthOps st.threads u) = writesOf (nthOps ops0 u)
      by_cases hu : t = u
      · subst hu
        simp only [holderPiece, if_pos rfl] at he ⊢
        have harr : (em ++ [b]) ++ rem = em ++ (b :: rem) := by simp
        rw [harr]
        exact he
      · simp only [holderPiece, if_neg hu] at he ⊢
        exact he
    · intro t' em' rem' heq
      have h1 : (some (t, em ++ [b], rem) : Option (Nat × List Nat × List Nat))
          = some (t', em', rem') := heq
      have ht : t = t' := congrArg (fun o => ((o.getD (0, [], [])).1)) h1
      rw [← ht]
      exact hinv.holder_lt t em (b :: rem) hh
  | endWrite t em hh =>
    refine ⟨order ++ [(t, em)], ?_, ?_, hinv.len_eq, ?_, ?_⟩
    · show st.stream = ((order ++ [(t, em)]).map Prod.snd).flatten ++ donePart none
      have hs := hinv.stream_eq
      rw [hh] at hs
      rw [hs]
      simp [donePart]
    · intro u
      have he := hinv.thread_eq u
      rw [hh] at he
      show filterThread u (order ++ [(t, em)]) ++ holderPiece none u
          ++ writesOf (nthOps st.threads u) = writesOf (nthOps ops0 u)
      by_cases hu : u = t
      · subst hu
        rw [filterThread_append_self]
        simp only [holderPiece, if_pos rfl] at he
        simp only [holderPiece]
        rw [List.append_assoc] at he ⊢
        simpa using he
      · rw [filterThread_append_ne t u order em hu]
        have hne : t ≠ u := fun e => hu e.symm
        simp only [holderPiece, if_neg hne] at he
        simp only [holderPiece]
        simpa using he
    · intro q hq
      rcases List.mem_append.mp hq with hq | hq
      · exact hinv.order_lt q hq
      · rcases List.mem_singleton.mp hq with rfl
        exact hinv.holder_lt t em [] hh
    · intro t' em' rem' heq
      exact Option.noConfusion heq
  | doResize t r c rest hfree hth =>
    refine ⟨order, hinv.stream_eq, ?_, ?_, hinv.order_lt, ?_⟩
    · intro u
      have he := hinv.thread_eq u
      by_cases hu : u = t
      · subst hu
        show filterThread u order ++ holderPiece st.holder u
            ++ writesOf (nthOps (modifyAt st.threads u (fun _ => rest)) u)
            = writesOf (nthOps ops0 u)
        rw [nthOps_modifyAt_const st.threads u _ rest hth]
        have hn : nthOps st.threads u = TOp.resize r c :: rest := by
          unfold nthOps
          rw [hth]
          rfl
        rw [hn] at he
        exact he
      · show filterThread u order ++ holderPiece st.holder u
            ++ writesOf (nthOps (modifyAt st.threads t (fun _ => rest)) u)
            = writesOf (nthOps ops0 u)
        rw [nthOps_modifyAt_ne st.threads t u _ hu]
        exact he
    · show (modifyAt st.threads t (fun _ => rest)).length = ops0.length
      rw [length_modifyAt]
      exact hinv.len_eq
    · intro t' em rem heq
      exact hinv.holder_lt t' em rem heq

/-- Every state reachable from the initial programs carries the
invariant for some completion order. -/
theorem inv_reach (ops0 : List (List TOp)) (r c : Nat) (st : WSt)
    (h : Relation.ReflTransGen WStep (initW ops0 r c) st) :
    ∃ order, Inv ops0 st order := by
  induction h with
  | refl => exact ⟨[], inv_init ops0 r c⟩
  | tail hsteps hstep ih =>
    rcases ih with ⟨order, hinv⟩
    exact inv_step hstep hinv

/-- C7: writes through the session mutex are totally ordered.  For every
interleaving of concurrent `Write` and `Resize` callers (any schedule
from the initial programs to a final state — mutex free, all programs
drained), the pty input stream is exactly the concatenation of the write
payloads in some total order: each payload contiguous (it appears as one
unbroken block of the flattening), and per caller in submission order
(the subsequence of payloads completed by caller `t` is exactly `t`'s
submitted write payloads, in order).  Resizes contribute no bytes and
cannot tear a write. -/
theorem c7_write_total_order (ops0 : List (List TOp)) (r c : Nat) (st : WSt)
    (h : Relation.ReflTransGen WStep (initW ops0 r c) st)
    (hfree : st.holder = none) (hdone : ∀ ops ∈ st.threads, ops = []) :
    ∃ order : List (Nat × List Nat),
      st.stream = (order.map Prod.snd).flatten ∧
      ∀ t, filterThread t order = writesOf (nthOps ops0 t) := by
  rcases inv_reach ops0 r c st h with ⟨order, hinv⟩
  refine ⟨order, ?_, ?_⟩
  · have hs := hinv.stream_eq
    rw [hfree] at hs
    simpa [donePart] using hs
  · intro t
    have he := hinv.thread_eq t
    rw [hfree] at he
    have hnil : nthOps st.threads t = [] := by
      unfold nthOps
      cases hg : st.threads.get? t with
      | none => rfl
      | some ops =>
        have hmem : ops ∈ st.threads := List.get?_mem hg
        rw [hdone ops hmem]
        rfl
    rw [hnil] at he
    simpa [holderPiece, writesOf] using he

/-- Witness for C7: two callers — thread 0 writes [1, 2], thread 1
resizes to 30 × 100 then writes [3] — under the schedule resize, write
[1, 2] byte by byte, then write [3]; the final stream is [1, 2, 3]. -/
theorem c7_write_total_order_witness :
    ∃ order : List (Nat × List Nat),
      (⟨[[], []], none, [1, 2, 3], 30, 100⟩ : WSt).stream
        = (order.map Prod.snd).flatten ∧
      ∀ t, filterThread t order
        = writesOf (nthOps [[TOp.write [1, 2]], [TOp.resize 30 100, TOp.write [3]]] t) :=
  c7_write_total_order [[TOp.write [1, 2]], [TOp.resize 30 100, TOp.write [3]]] 24 80
    ⟨[[], []], none, [1, 2, 3], 30, 100⟩
    (by
      refine Relation.ReflTransGen.head
        (WStep.doResize _ 1 30 100 [TOp.write [3]] rfl rfl) ?_
      refine Relation.ReflTransGen.head
        (WStep.startWrite _ 0 [1, 2] [] rfl rfl) ?_
      refine Relation.ReflTransGen.head (WStep.emit _ 0 [] 1 [2] rfl) ?_
      refine Relation.ReflTransGen.head (WStep.emit _ 0 [1] 2 [] rfl) ?_
      refine Relation.ReflTransGen.head (WStep.endWrite _ 0 [1, 2] rfl) ?_
      refine Relation.ReflTransGen.head
        (WStep.startWrite _ 1 [3] [] rfl rfl) ?_
      refine Relation.ReflTransGen.head (WStep.emit _ 1 [] 3 [] rfl) ?_
      exact Relation.ReflTransGen.single (WStep.endWrite _ 1 [3] rfl))
    rfl (by decide)

end WriteOrder
